import Mathlib

/-!
Verification development for `joint_dependency/simulation.py`.

The simulation state is embedded shallowly over an arbitrary linear ordered
field `α` (instantiated at `ℚ` for concrete evaluation and at `ℝ` for the
analytic facts).  Two aspects of the source have no computable counterpart
and are abstracted by parameters:

* `np.sqrt` is passed in as a function `sq : α → α`; theorems about the
  damping update instantiate it with `Real.sqrt` at `α = ℝ`.
* `random.gauss(mu, sigma)` is modelled as `mu + sigma * g n` where
  `g : ℕ → α` is a fixed stream of standard draws and `n` is a counter
  threaded through the state (field `rng` of `World`); each call to
  `get_q`/`get_vel` consumes one draw.

Python raising `IndexError` (out-of-range list access) is modelled by
`Option`: a step that would raise returns `none`.

Python objects referenced by several owners (a `Controller`, `Locker` or
`MultiLocker` holds a reference to joints owned by the `World`) are
represented by indices into the `World`'s lists; the `World` stores the
registered listeners' own state in the `controllers`/`lockers`/
`multiLockers` tables, and `listeners` records the registration order.
-/

set_option linter.unusedSectionVars false
set_option linter.unusedVariables false

variable {α : Type*} [LinearOrderedField α]

/-- `get_state(q, states)` from the source, inner loop.  At element `(i, k)`
the Python loop returns `i` when `q < k`; when the loop finishes it returns
`i + 1` where `i` is the last index, which equals the length of the list. -/
def get_state_aux (q : α) : ℕ → List α → ℕ
  | i, [] => i
  | i, k :: ks => if q < k then i else get_state_aux q (i + 1) ks

/-- `get_state(q, states)`: when `states` is empty the loop body never runs,
the loop variable keeps its initial value `0`, and the function returns
`0 + 1 = 1`. -/
def get_state (q : α) (states : List α) : ℕ :=
  match states with
  | [] => 1
  | k :: ks => get_state_aux q 0 (k :: ks)

/-- `sgn(x)` from the source: `-1` for negative input, `1` otherwise. -/
def sgn (x : α) : α :=
  if x < 0 then -1 else 1

/-- Per-tick record emitted by `Joint.step` (the `[q, vel, locked, direction]`
list returned to the `Record` decorator). -/
structure Sample (α : Type*) where
  q : α
  vel : α
  locked : Bool
  direction : α
  deriving DecidableEq

/-- State of a `Joint`.  `max_vel` is `np.inf` in the source and is modelled
as `Option α` with `none` standing for plus infinity.  The `direction`
attribute set in `__init__` is never read and the `index`/`world` back
references are represented by list positions, so none of them are fields. -/
structure Joint (α : Type*) where
  maxVel : Option α
  vel : α
  q : α
  states : List α
  dampings : List α
  minLimit : Option α
  maxLimit : Option α
  locked : Bool
  noiseQ : α
  noiseVel : α
  deriving DecidableEq

/-- `Joint.add_force`: no-op while locked, otherwise add `f` to the velocity
and clamp it from above by `max_vel` (the `state = get_state(...)` local in
the source is unused and is dropped). -/
def Joint.add_force (j : Joint α) (f : α) : Joint α :=
  if j.locked then j
  else
    { j with vel := match j.maxVel with
      | none => j.vel + f
      | some m => min (j.vel + f) m }

/-- `Joint.lock`: zero the velocity and set the flag. -/
def Joint.lock (j : Joint α) : Joint α :=
  { j with vel := 0, locked := true }

/-- `Joint.unlock`: clear the flag, velocity left as is. -/
def Joint.unlock (j : Joint α) : Joint α :=
  { j with locked := false }

/-- `Joint.is_locked`. -/
def Joint.is_locked (j : Joint α) : Bool :=
  j.locked

/-- `Joint.get_q`: the true position perturbed by Gaussian sensor noise,
`random.gauss(q, noise['q'])`; consumes one draw of the stream. -/
def Joint.get_q (j : Joint α) (g : ℕ → α) (rng : ℕ) : α × ℕ :=
  (j.q + j.noiseQ * g rng, rng + 1)

/-- `Joint.get_vel`: the true velocity perturbed by Gaussian sensor noise. -/
def Joint.get_vel (j : Joint α) (g : ℕ → α) (rng : ℕ) : α × ℕ :=
  (j.vel + j.noiseVel * g rng, rng + 1)

/-- `Joint.step(dt)`.  Locked: state unchanged, sample `(q, vel, locked, 0)`.
Unlocked: integrate the position, clamp at the limits (remembering in the
second pair component the Python `change_direction` value, `-1` initially
and `1` after either clamp), look up the zone damping (an out-of-range
lookup, which raises `IndexError` in Python, yields `none`), and apply the
friction decay through the square-root oracle `sq`.  The `vel = self.vel*dt`
local of the source is dead code and is dropped. -/
def Joint.step (j : Joint α) (sq : α → α) (dt : α) : Option (Joint α × Sample α) :=
  if j.locked then some (j, { q := j.q, vel := j.vel, locked := j.locked, direction := 0 })
  else
    let q1 := j.q + j.vel * dt
    let m1 : α × α :=
      match j.maxLimit with
      | some m => if q1 > m then (m, 1) else (q1, -1)
      | none => (q1, -1)
    let m2 : α × α :=
      match j.minLimit with
      | some m => if m1.1 < m then (m, 1) else m1
      | none => m1
    match j.dampings.get? (get_state m2.1 j.states) with
    | none => none
    | some damping =>
      let dir := -m2.2 * sgn j.vel
      let tmp := max (j.vel ^ 2 - |damping * j.vel * dt|) 0
      let v2 := dir * sq tmp
      some ({ j with q := m2.1, vel := v2 },
            { q := m2.1, vel := v2, locked := j.locked, direction := dir })

/-- State of a `ForceController`.  The joint reference stored by `__init__`
is never used by `apply_force`, `is_done` or `step` and is omitted. -/
structure ForceController (α : Type*) where
  time : α
  force : α
  deriving DecidableEq

/-- `ForceController` as built by `__init__`. -/
def ForceController.init : ForceController α :=
  { time := 0, force := 0 }

/-- `ForceController.apply_force(time, force)`: overwrite both fields. -/
def ForceController.apply_force (_fc : ForceController α) (time force : α) :
    ForceController α :=
  { time := time, force := force }

/-- `ForceController.is_done`: remaining duration at most 0. -/
def ForceController.is_done (fc : ForceController α) : Bool :=
  fc.time ≤ 0

/-- `ForceController.step(dt)`: decrement the remaining duration (floored at
0) first, then output the commanded force iff the NEW remaining duration is
still positive. -/
def ForceController.step (fc : ForceController α) (dt : α) : ForceController α × α :=
  let t := max 0 (fc.time - dt)
  ({ fc with time := t }, if t > 0 then fc.force else 0)

/-- State of a `PositionController`.  The joint reference is represented by
the owning `Controller`'s index; the constant fields are set by `init`. -/
structure PositionController (α : Type*) where
  goalPos : Option α
  qEps : α
  vEps : α
  q : α
  v : α
  i : α
  kp : α
  kd : α
  ki : α
  maxForce : α
  deriving DecidableEq

/-- `PositionController` as built by `__init__` (`q_eps=.5`, `v_eps=10e-3`,
`kp=2`, `kd=1`, `ki=0`, `max_force=30`). -/
def PositionController.init : PositionController α :=
  { goalPos := none, qEps := 1 / 2, vEps := 10 / 1000, q := 0, v := 0, i := 0,
    kp := 2, kd := 1, ki := 0, maxForce := 30 }

/-- `PositionController.move_to(pos)`: set the target (the integral term is
not reset). -/
def PositionController.move_to (pc : PositionController α) (pos : α) :
    PositionController α :=
  { pc with goalPos := some pos }

/-- `PositionController.is_done()`: no target, or within both tolerances of
the target, or the controlled joint is currently locked. -/
def PositionController.is_done (pc : PositionController α) (locked : Bool) : Bool :=
  match pc.goalPos with
  | none => true
  | some gp =>
    if |pc.q - gp| < pc.qEps ∧ |pc.v| < pc.vEps then true
    else if locked then true
    else false

/-- `PositionController.step(dt)`: read the noisy sensors (two draws of the
stream), then `_pid_control()`: output 0 when there is no goal or `is_done`
holds for the fresh readings, else accumulate the integral term and return
the PID force. -/
def PositionController.step (pc : PositionController α) (g : ℕ → α) (jt : Joint α)
    (rng : ℕ) : PositionController α × ℕ × α :=
  let qr := jt.get_q g rng
  let vr := jt.get_vel g qr.2
  let pc1 := { pc with q := qr.1, v := vr.1 }
  match pc.goalPos with
  | none => (pc1, vr.2, 0)
  | some gp =>
    if pc1.is_done jt.is_locked then (pc1, vr.2, 0)
    else
      let pc2 := { pc1 with i := pc1.i + (gp - qr.1) }
      (pc2, vr.2, pc.kp * (gp - qr.1) + pc.kd * (-vr.1) + pc.ki * pc2.i)

/-- State of a `Controller`: the controlled joint's index, the two mode
flags, the two sub-controllers, and the saturation bound. -/
structure Controller (α : Type*) where
  jointIdx : ℕ
  forceControl : Bool
  forceController : ForceController α
  positionControl : Bool
  positionController : PositionController α
  maxForce : α
  deriving DecidableEq

/-- `Controller` as built by `__init__` (both modes off, `max_force=15`). -/
def Controller.init (jointIdx : ℕ) : Controller α :=
  { jointIdx := jointIdx, forceControl := false, forceController := ForceController.init,
    positionControl := false, positionController := PositionController.init,
    maxForce := 15 }

/-- `Controller.move_to(goal)`: forward to the position controller and raise
the position flag (the force flag is untouched). -/
def Controller.move_to (c : Controller α) (goal : α) : Controller α :=
  { c with positionController := c.positionController.move_to goal,
           positionControl := true }

/-- `Controller.apply_force(time, force)`: forward to the force controller
and raise the force flag. -/
def Controller.apply_force (c : Controller α) (time force : α) : Controller α :=
  { c with forceController := c.forceController.apply_force time force,
           forceControl := true }

/-- `Controller.is_done()`: neither mode is active. -/
def Controller.is_done (c : Controller α) : Bool :=
  !c.positionControl && !c.forceControl

/-- The `if/elif` tree of `Controller.step`: returns the updated controller,
the draw counter, and the desired force.  Force mode is examined first;
position mode is reached only when the force flag is down. -/
def Controller.stepMode (c : Controller α) (g : ℕ → α) (dt : α) (jt : Joint α)
    (rng : ℕ) : Controller α × ℕ × α :=
  if c.forceControl then
    if c.forceController.is_done then ({ c with forceControl := false }, rng, 0)
    else
      ({ c with forceController := (c.forceController.step dt).1 }, rng,
       (c.forceController.step dt).2)
  else if c.positionControl then
    if c.positionController.is_done jt.is_locked then
      ({ c with positionControl := false }, rng, 0)
    else
      ({ c with positionController := (c.positionController.step g jt rng).1 },
       (c.positionController.step g jt rng).2.1,
       (c.positionController.step g jt rng).2.2)
  else (c, rng, 0)

/-- Result of one `Controller.step` call: the updated controller state, the
updated joint list, the updated draw counter, and the emitted
`(applied_force, desired_force)` sample. -/
structure CtrlStep (α : Type*) where
  ctrl : Controller α
  joints : List (Joint α)
  rng : ℕ
  applied : α
  desired : α
  deriving DecidableEq

/-- `Controller.step(dt)`: compute the desired force from the active mode,
saturate it to `sign(desired) * min(|desired|, max_force)`, and forward the
saturated force to the joint via `add_force`. -/
def Controller.step (c : Controller α) (g : ℕ → α) (dt : α) (joints : List (Joint α))
    (rng : ℕ) : Option (CtrlStep α) :=
  (joints.get? c.jointIdx).bind fun jt =>
    let m := c.stepMode g dt jt rng
    let applied := sgn m.2.2 * min |m.2.2| c.maxForce
    some { ctrl := m.1, joints := joints.set c.jointIdx (jt.add_force applied),
           rng := m.2.1, applied := applied, desired := m.2.2 }

/-- Configuration of a `Locker` (one exclusive interval); the two joints are
referenced by their index in the world's joint list. -/
structure Locker (α : Type*) where
  lockerIdx : ℕ
  lockedIdx : ℕ
  lower : α
  upper : α
  deriving DecidableEq

/-- `Locker.step`: lock the target when the locker joint's position is
strictly inside `(lower, upper)` and the target is not yet locked; unlock it
when the position is outside and the target is locked. -/
def Locker.step (L : Locker α) (joints : List (Joint α)) : Option (List (Joint α)) :=
  (joints.get? L.lockerIdx).bind fun lk =>
    (joints.get? L.lockedIdx).bind fun tg =>
      if L.lower < lk.q ∧ lk.q < L.upper then
        if tg.is_locked then some joints
        else some (joints.set L.lockedIdx tg.lock)
      else
        if tg.is_locked then some (joints.set L.lockedIdx tg.unlock)
        else some joints

/-- Configuration of a `MultiLocker` (a list of inclusive intervals). -/
structure MultiLocker (α : Type*) where
  lockerIdx : ℕ
  lockedIdx : ℕ
  locks : List (α × α)
  deriving DecidableEq

/-- `MultiLocker.step`: the target should be locked iff the locker joint's
position lies in at least one interval, inclusively; apply the transition
only when the current flag differs. -/
def MultiLocker.step (M : MultiLocker α) (joints : List (Joint α)) :
    Option (List (Joint α)) :=
  (joints.get? M.lockerIdx).bind fun lk =>
    (joints.get? M.lockedIdx).bind fun tg =>
      let shouldBeLocked := M.locks.any fun l => decide (l.1 ≤ lk.q ∧ lk.q ≤ l.2)
      if tg.is_locked && !shouldBeLocked then some (joints.set M.lockedIdx tg.unlock)
      else if !tg.is_locked && shouldBeLocked then some (joints.set M.lockedIdx tg.lock)
      else some joints

/-- A registered listener: an index into one of the `World`'s listener
tables, tagged with its kind. -/
inductive ListenerRef where
  | controllerRef (i : ℕ)
  | lockerRef (i : ℕ)
  | multiLockerRef (i : ℕ)
  deriving DecidableEq

/-- The `World` state: the joint list, the clock, the listener tables,
the registration order, and the Gaussian draw counter. -/
structure World (α : Type*) where
  joints : List (Joint α)
  time : α
  controllers : List (Controller α)
  lockers : List (Locker α)
  multiLockers : List (MultiLocker α)
  listeners : List ListenerRef
  rng : ℕ
  deriving DecidableEq

/-- Run one listener's `step(dt)`, updating the world state it touches. -/
def informOne (g : ℕ → α) (dt : α) (s : World α) : ListenerRef → Option (World α)
  | ListenerRef.controllerRef i =>
      (s.controllers.get? i).bind fun c =>
        (c.step g dt s.joints s.rng).bind fun r =>
          some { s with controllers := s.controllers.set i r.ctrl,
                        joints := r.joints, rng := r.rng }
  | ListenerRef.lockerRef i =>
      (s.lockers.get? i).bind fun L =>
        (L.step s.joints).bind fun joints => some { s with joints := joints }
  | ListenerRef.multiLockerRef i =>
      (s.multiLockers.get? i).bind fun M =>
        (M.step s.joints).bind fun joints => some { s with joints := joints }

/-- The loop body of `World._inform_listeners`: run the given listeners in
order, threading the state. -/
def informListenersAux (g : ℕ → α) (dt : α) : List ListenerRef → World α → Option (World α)
  | [], s => some s
  | r :: rs, s => (informOne g dt s r).bind (informListenersAux g dt rs)

/-- `World._inform_listeners(dt)`: every registered listener steps, in
registration order. -/
def World.inform_listeners (g : ℕ → α) (dt : α) (s : World α) : Option (World α) :=
  informListenersAux g dt s.listeners s

/-- The joint loop of `World.step`: step every joint in index order; each
joint's update reads only that joint's own state. -/
def stepJointsList (sq : α → α) (dt : α) : List (Joint α) → Option (List (Joint α))
  | [] => some []
  | j :: js =>
      (j.step sq dt).bind fun r =>
        (stepJointsList sq dt js).bind fun rest => some (r.1 :: rest)

/-- `World.step(dt)`: advance the clock, step every joint in index order,
then inform every listener in registration order. -/
def World.step (s : World α) (sq : α → α) (g : ℕ → α) (dt : α) : Option (World α) :=
  (stepJointsList sq dt s.joints).bind fun joints =>
    World.inform_listeners g dt { s with time := s.time + dt, joints := joints }

/-- `for i in range(n): world.step(tau)` — `n` consecutive world ticks. -/
def stepN (sq : α → α) (g : ℕ → α) (tau : α) : ℕ → World α → Option (World α)
  | 0, s => some s
  | Nat.succ n, s => (s.step sq g tau).bind (stepN sq g tau n)

/-- `self.controllers[j].move_to(p)` inside `run_action`, as a state update
on the world (the action machine's controller list is the world's). -/
def moveToCtrl (j : ℕ) (p : α) (s : World α) : Option (World α) :=
  (s.controllers.get? j).bind fun c =>
    some { s with controllers := s.controllers.set j (c.move_to p) }

/-- The `while not self.controllers[j].is_done(): self.world.step(self.tau)`
loop of `run_action`.  The source loop is unbounded; the embedding carries
a fuel argument and returns `none` when the fuel runs out, so `some`
results are exactly the terminating runs. -/
def waitLoop (sq : α → α) (g : ℕ → α) (tau : α) (j : ℕ) :
    ℕ → World α → Option (World α)
  | 0, _ => none
  | Nat.succ fl, s =>
      (s.controllers.get? j).bind fun c =>
        if c.is_done then some s
        else (s.step sq g tau).bind (waitLoop sq g tau j fl)

/-- The loop of `run_action` from loop counter `j` on: Python's
`for j, p in enumerate(pos)` issues `move_to(p)` on `controllers[j]` and
waits for that controller before the next element. -/
def runActionAux (sq : α → α) (g : ℕ → α) (tau : α) (fuel : ℕ) :
    ℕ → List α → World α → Option (World α)
  | _, [], s => some s
  | j, p :: ps, s =>
      (moveToCtrl j p s).bind fun s1 =>
        (waitLoop sq g tau j fuel s1).bind fun s2 =>
          runActionAux sq g tau fuel (j + 1) ps s2

/-- `ActionMachine.run_action(pos)`: the enumerate loop started at 0. -/
def run_action (sq : α → α) (g : ℕ → α) (tau : α) (fuel : ℕ) (pos : List α)
    (s : World α) : Option (World α) :=
  runActionAux sq g tau fuel 0 pos s

/-- Explicit `(index, element)` pairs of a list, starting at `j` — the pair
sequence produced by Python's `enumerate`. -/
def enumPairs : ℕ → List α → List (ℕ × α)
  | _, [] => []
  | j, p :: ps => (j, p) :: enumPairs (j + 1) ps

/-- Follows the spec's words for `run_action`: given an ordered sequence of
(joint index, target position) pairs, for each pair issue `move_to` on the
Controller named by the pair's joint index, then repeatedly advance the
World by `tau` until that Controller reports done, before the next pair. -/
def runActionSpec (sq : α → α) (g : ℕ → α) (tau : α) (fuel : ℕ) :
    List (ℕ × α) → World α → Option (World α)
  | [], s => some s
  | (j, p) :: gs, s =>
      (moveToCtrl j p s).bind fun s1 =>
        (waitLoop sq g tau j fuel s1).bind fun s2 =>
          runActionSpec sq g tau fuel gs s2

/-- `ActionMachine.check_state(joint)`: record the position, arm a timed
force of duration 1 and magnitude 10 on that joint's controller, advance
the world by 10 ticks of size `tau`, and compare the absolute position
change against `10e-3`: above → 0 (unlocked), otherwise → 1 (locked). -/
def check_state (sq : α → α) (g : ℕ → α) (tau : α) (j : ℕ) (s : World α) :
    Option (ℕ × World α) :=
  (s.joints.get? j).bind fun jt =>
    (s.controllers.get? j).bind fun c =>
      (stepN sq g tau 10
          { s with controllers := s.controllers.set j (c.apply_force 1 10) }).bind fun s2 =>
        (s2.joints.get? j).bind fun jt2 =>
          some (if |jt.q - jt2.q| > 10 / 1000 then 0 else 1, s2)

/-! Concrete fixture states used to evaluate the theorems below on closed
inputs (over `ℚ` where evaluation is wanted, over `ℝ` for the friction
bound). -/

/-- A locked joint. -/
def jLockedW : Joint ℚ :=
  { maxVel := none, vel := 0, q := 0, states := [5], dampings := [1, 1],
    minLimit := some 0, maxLimit := some 10, locked := true, noiseQ := 0, noiseVel := 0 }

/-- An unlocked joint at the origin. -/
def jFreeW : Joint ℚ :=
  { maxVel := none, vel := 0, q := 0, states := [5], dampings := [1, 1],
    minLimit := none, maxLimit := none, locked := false, noiseQ := 0, noiseVel := 0 }

/-- An unlocked joint resting at `q = 5`. -/
def jAt5W : Joint ℚ :=
  { jFreeW with q := 5 }

/-- An unlocked joint with an empty threshold list and a single damping
coefficient (the documented length invariant `len(dampings) = len(states)+1`). -/
def jEmptyW : Joint ℚ :=
  { jFreeW with states := [], dampings := [15] }

/-- A world holding one locked joint and its controller. -/
def wLockedW : World ℚ :=
  { joints := [jLockedW], time := 0, controllers := [Controller.init 0],
    lockers := [], multiLockers := [], listeners := [ListenerRef.controllerRef 0],
    rng := 0 }

/-- A `Locker` watching joint 0 with the exclusive region `(1, 9)`,
driving joint 1. -/
def LW : Locker ℚ :=
  { lockerIdx := 0, lockedIdx := 1, lower := 1, upper := 9 }

/-- A `MultiLocker` watching joint 0 with the inclusive regions
`[10, 20]` and `[50, 60]`, driving joint 1. -/
def MW : MultiLocker ℚ :=
  { lockerIdx := 0, lockedIdx := 1, locks := [(10, 20), (50, 60)] }

/-- A controller with both modes armed and an unfinished force command. -/
def cBothW : Controller ℚ :=
  { jointIdx := 0, forceControl := true, forceController := { time := 1, force := 9 },
    positionControl := true, positionController := PositionController.init,
    maxForce := 15 }

/-- A real-valued unlocked joint with unit velocity and no limits. -/
def jRW : Joint ℝ :=
  { maxVel := none, vel := 1, q := 0, states := [], dampings := [3, 2],
    minLimit := none, maxLimit := none, locked := false, noiseQ := 0, noiseVel := 0 }

/-- A world holding one locked joint, a controller for it in the controller
table, and no registered listeners (evaluation fixture for the probe). -/
def wLockedPlainW : World ℚ :=
  { joints := [jLockedW], time := 0, controllers := [Controller.init 0],
    lockers := [], multiLockers := [], listeners := [], rng := 0 }

/-! Helper lemmas about lists and the component operations. -/

theorem list_get?_set_self {β : Type*} (l : List β) (i : ℕ) (b a : β)
    (h : l.get? i = some b) : (l.set i a).get? i = some a := by
  induction l generalizing i with
  | nil => simp at h
  | cons x xs ih =>
    cases i with
    | zero => rfl
    | succ n =>
      simp only [List.get?] at h
      simpa only [List.set, List.get?] using ih n h

theorem list_get?_map {β γ : Type*} (f : β → γ) (l : List β) (n : ℕ) :
    (l.map f).get? n = (l.get? n).map f := by
  induction l generalizing n with
  | nil => simp
  | cons x xs ih =>
    cases n with
    | zero => rfl
    | succ m => simpa only [List.map, List.get?] using ih m

theorem list_map_set_eq {β γ : Type*} (f : β → γ) (l : List β) (i : ℕ) (b a : β)
    (h : l.get? i = some b) (hf : f a = f b) : (l.set i a).map f = l.map f := by
  induction l generalizing i with
  | nil => simp at h
  | cons x xs ih =>
    cases i with
    | zero =>
      simp only [List.get?] at h
      obtain rfl : x = b := by exact Option.some.inj h
      simp [List.set, hf]
    | succ n =>
      simp only [List.get?] at h
      simp [List.set, ih n h]

theorem Joint.add_force_q (j : Joint α) (f : α) : (j.add_force f).q = j.q := by
  unfold Joint.add_force
  split
  · rfl
  · rfl

theorem Joint.add_force_locked (j : Joint α) (f : α) :
    (j.add_force f).locked = j.locked := by
  unfold Joint.add_force
  split
  · rfl
  · rfl

theorem Joint.lock_q (j : Joint α) : j.lock.q = j.q := rfl

theorem Joint.unlock_q (j : Joint α) : j.unlock.q = j.q := rfl

theorem Joint.step_of_locked (j : Joint α) (sq : α → α) (dt : α) (h : j.locked = true) :
    j.step sq dt = some (j, { q := j.q, vel := j.vel, locked := j.locked, direction := 0 }) := by
  unfold Joint.step
  rw [h]
  simp

theorem Controller.step_shape (c : Controller α) (g : ℕ → α) (dt : α)
    (joints : List (Joint α)) (rng : ℕ) (r : CtrlStep α)
    (h : c.step g dt joints rng = some r) :
    ∃ jt, joints.get? c.jointIdx = some jt ∧
      r.ctrl = (c.stepMode g dt jt rng).1 ∧
      r.rng = (c.stepMode g dt jt rng).2.1 ∧
      r.desired = (c.stepMode g dt jt rng).2.2 ∧
      r.applied = sgn r.desired * min |r.desired| c.maxForce ∧
      r.joints = joints.set c.jointIdx (jt.add_force r.applied) := by
  unfold Controller.step at h
  cases hj : joints.get? c.jointIdx with
  | none => rw [hj] at h; simp at h
  | some jt =>
    rw [hj] at h
    simp only [Option.some_bind, Option.some.injEq] at h
    subst h
    exact ⟨jt, rfl, rfl, rfl, rfl, rfl, rfl⟩

theorem locker_step_map_q (L : Locker α) (joints js : List (Joint α))
    (h : L.step joints = some js) : js.map Joint.q = joints.map Joint.q := by
  unfold Locker.step at h
  cases h1 : joints.get? L.lockerIdx with
  | none => rw [h1] at h; simp at h
  | some lk =>
    cases h2 : joints.get? L.lockedIdx with
    | none => rw [h1, h2] at h; simp at h
    | some tg =>
      rw [h1, h2] at h
      simp only [Option.some_bind] at h
      split at h <;> split at h <;>
        simp only [Option.some.injEq] at h <;> subst h
      · rfl
      · exact list_map_set_eq Joint.q joints L.lockedIdx tg tg.lock h2 (Joint.lock_q tg)
      · exact list_map_set_eq Joint.q joints L.lockedIdx tg tg.unlock h2 (Joint.unlock_q tg)
      · rfl

theorem multiLocker_step_map_q (M : MultiLocker α) (joints js : List (Joint α))
    (h : M.step joints = some js) : js.map Joint.q = joints.map Joint.q := by
  unfold MultiLocker.step at h
  cases h1 : joints.get? M.lockerIdx with
  | none => rw [h1] at h; simp at h
  | some lk =>
    cases h2 : joints.get? M.lockedIdx with
    | none => rw [h1, h2] at h; simp at h
    | some tg =>
      rw [h1, h2] at h
      simp only [Option.some_bind] at h
      split at h
      · simp only [Option.some.injEq] at h
        subst h
        exact list_map_set_eq Joint.q joints M.lockedIdx tg tg.unlock h2 (Joint.unlock_q tg)
      · split at h <;> simp only [Option.some.injEq] at h <;> subst h
        · exact list_map_set_eq Joint.q joints M.lockedIdx tg tg.lock h2 (Joint.lock_q tg)
        · rfl

theorem informOne_preserves (g : ℕ → α) (dt : α) (s : World α) (r : ListenerRef)
    (s2 : World α) (h : informOne g dt s r = some s2) :
    s2.joints.map Joint.q = s.joints.map Joint.q ∧ s2.time = s.time ∧
      s2.listeners = s.listeners := by
  cases r with
  | controllerRef i =>
    simp only [informOne] at h
    cases h1 : s.controllers.get? i with
    | none => rw [h1] at h; simp at h
    | some c =>
      rw [h1] at h
      simp only [Option.some_bind] at h
      cases h2 : c.step g dt s.joints s.rng with
      | none => rw [h2] at h; simp at h
      | some r2 =>
        rw [h2] at h
        simp only [Option.some_bind, Option.some.injEq] at h
        subst h
        obtain ⟨jt, hjt, _, _, _, _, hjs⟩ :=
          Controller.step_shape c g dt s.joints s.rng r2 h2
        refine ⟨?_, rfl, rfl⟩
        simp only [hjs]
        exact list_map_set_eq Joint.q s.joints c.jointIdx jt (jt.add_force r2.applied)
          hjt (Joint.add_force_q jt r2.applied)
  | lockerRef i =>
    simp only [informOne] at h
    cases h1 : s.lockers.get? i with
    | none => rw [h1] at h; simp at h
    | some L =>
      rw [h1] at h
      simp only [Option.some_bind] at h
      cases h2 : L.step s.joints with
      | none => rw [h2] at h; simp at h
      | some js =>
        rw [h2] at h
        simp only [Option.some_bind, Option.some.injEq] at h
        subst h
        exact ⟨locker_step_map_q L s.joints js h2, rfl, rfl⟩
  | multiLockerRef i =>
    simp only [informOne] at h
    cases h1 : s.multiLockers.get? i with
    | none => rw [h1] at h; simp at h
    | some M =>
      rw [h1] at h
      simp only [Option.some_bind] at h
      cases h2 : M.step s.joints with
      | none => rw [h2] at h; simp at h
      | some js =>
        rw [h2] at h
        simp only [Option.some_bind, Option.some.injEq] at h
        subst h
        exact ⟨multiLocker_step_map_q M s.joints js h2, rfl, rfl⟩

theorem informListenersAux_preserves (g : ℕ → α) (dt : α) (rs : List ListenerRef)
    (s s2 : World α) (h : informListenersAux g dt rs s = some s2) :
    s2.joints.map Joint.q = s.joints.map Joint.q ∧ s2.time = s.time ∧
      s2.listeners = s.listeners := by
  induction rs generalizing s with
  | nil =>
    simp only [informListenersAux, Option.some.injEq] at h
    subst h
    exact ⟨rfl, rfl, rfl⟩
  | cons r rs ih =>
    simp only [informListenersAux] at h
    cases h1 : informOne g dt s r with
    | none => rw [h1] at h; simp at h
    | some smid =>
      rw [h1] at h
      simp only [Option.some_bind] at h
      obtain ⟨hq1, ht1, hl1⟩ := informOne_preserves g dt s r smid h1
      obtain ⟨hq2, ht2, hl2⟩ := ih smid h
      exact ⟨hq2.trans hq1, ht2.trans ht1, hl2.trans hl1⟩

theorem stepJointsList_get? (sq : α → α) (dt : α) (l l2 : List (Joint α))
    (h : stepJointsList sq dt l = some l2) :
    ∀ k, l2.get? k = (l.get? k).bind fun jt => (jt.step sq dt).map Prod.fst := by
  induction l generalizing l2 with
  | nil =>
    simp only [stepJointsList, Option.some.injEq] at h
    subst h
    intro k
    simp
  | cons j js ih =>
    simp only [stepJointsList] at h
    cases h1 : j.step sq dt with
    | none => rw [h1] at h; simp at h
    | some r =>
      rw [h1] at h
      simp only [Option.some_bind] at h
      cases h2 : stepJointsList sq dt js with
      | none => rw [h2] at h; simp at h
      | some rest =>
        rw [h2] at h
        simp only [Option.some_bind, Option.some.injEq] at h
        subst h
        intro k
        cases k with
        | zero => simp [List.get?, h1]
        | succ n => simpa only [List.get?] using ih rest h2 n

theorem stepN_succ_back (sq : α → α) (g : ℕ → α) (tau : α) (n : ℕ) (s : World α) :
    stepN sq g tau (n + 1) s = (stepN sq g tau n s).bind fun t => t.step sq g tau := by
  induction n generalizing s with
  | zero => simp [stepN]
  | succ m ih =>
    show (s.step sq g tau).bind (stepN sq g tau (m + 1)) =
      (stepN sq g tau (m + 1) s).bind fun t => t.step sq g tau
    rw [show stepN sq g tau (m + 1) s = (s.step sq g tau).bind (stepN sq g tau m) from rfl]
    cases hs : s.step sq g tau with
    | none => simp
    | some t =>
      simp only [Option.some_bind]
      exact ih t

theorem World.step_locked_q (s : World α) (sq : α → α) (g : ℕ → α) (dt : α)
    (j : ℕ) (jt : Joint α) (s2 : World α) (hjt : s.joints.get? j = some jt)
    (hl : jt.locked = true) (h : s.step sq g dt = some s2) :
    (s2.joints.get? j).map Joint.q = some jt.q := by
  unfold World.step at h
  cases h1 : stepJointsList sq dt s.joints with
  | none => rw [h1] at h; simp at h
  | some js =>
    rw [h1] at h
    simp only [Option.some_bind] at h
    have hk := stepJointsList_get? sq dt s.joints js h1 j
    rw [hjt] at hk
    simp only [Option.some_bind] at hk
    rw [Joint.step_of_locked jt sq dt hl] at hk
    simp only [Option.map_some'] at hk
    unfold World.inform_listeners at h
    obtain ⟨hq, _, _⟩ := informListenersAux_preserves g dt _ _ s2 h
    have : (s2.joints.map Joint.q).get? j = (js.map Joint.q).get? j := by rw [hq]
    rw [list_get?_map, list_get?_map, hk] at this
    simpa using this

/-! Claim theorems. -/

/-- Claim C2, counterexample to the claim as stated: with remaining duration
`d = 1/2 > 0`, commanded force `7 ≠ 0` and `dt = 1 > 0`, the claim predicts
that `step` returns the force `7` (since the duration before the decrement
was positive), but the code returns `0`, because it gates the output on the
duration AFTER the decrement. -/
theorem force_step_before_decrement_cex :
    (0 : ℚ) < 1 ∧ (0 : ℚ) < 1 / 2 ∧ (7 : ℚ) ≠ 0 ∧
      (ForceController.step ({ time := 1 / 2, force := 7 } : ForceController ℚ) 1).2 = 0 := by
  refine ⟨by norm_num, by norm_num, by norm_num, ?_⟩
  show (if max 0 ((1 : ℚ) / 2 - 1) > 0 then (7 : ℚ) else 0) = 0
  rw [max_eq_left (by norm_num : (1 : ℚ) / 2 - 1 ≤ 0)]
  norm_num

/-- Claim C2 (amended): for every ForceController with remaining duration
`d` and commanded force `f`, and every `dt > 0`, `step(dt)` sets the
remaining duration to `max(0, d - dt)` and returns `f` if the duration
AFTER the decrement is greater than 0 (i.e. whenever `d > dt`), and
returns `0` otherwise. -/
theorem force_step_duration_after (fc : ForceController α) (dt : α) (h : 0 < dt) :
    (fc.step dt).1.time = max 0 (fc.time - dt) ∧
      (fc.step dt).2 = if dt < fc.time then fc.force else 0 := by
  refine ⟨rfl, ?_⟩
  show (if max 0 (fc.time - dt) > 0 then fc.force else 0) = _
  by_cases hc : dt < fc.time
  · rw [if_pos hc, if_pos (lt_max_of_lt_right (sub_pos.mpr hc))]
  · have hn : ¬ (max 0 (fc.time - dt) > 0) := by
      rw [not_lt]
      exact max_le le_rfl (sub_nonpos.mpr (not_lt.mp hc))
    rw [if_neg hc, if_neg hn]

/-- Witness for C2's amended theorem at duration 3, force 5, `dt = 1`. -/
theorem force_step_duration_after_instance :
    (ForceController.step { time := (3 : ℚ), force := 5 } 1).1.time = 2 ∧
      (ForceController.step { time := (3 : ℚ), force := 5 } 1).2 = 5 := by
  obtain ⟨h1, h2⟩ := force_step_duration_after { time := (3 : ℚ), force := 5 } 1 (by norm_num)
  constructor
  · rw [h1, max_eq_right (by norm_num : (0 : ℚ) ≤ 3 - 1)]
    norm_num
  · rw [h2, if_pos (by norm_num : (1 : ℚ) < 3)]

/-- Claim C5: for every joint whose locked flag is true, `add_force(f)`
leaves the joint's entire state unchanged for every force `f`, and
`step(dt)` leaves position and velocity unchanged for every `dt` and emits
the sample `(q, vel, locked, 0)`. -/
theorem locked_joint_frame (j : Joint α) (sq : α → α) (f dt : α) (h : j.locked = true) :
    j.add_force f = j ∧
      j.step sq dt =
        some (j, { q := j.q, vel := j.vel, locked := j.locked, direction := 0 }) := by
  constructor
  · unfold Joint.add_force
    rw [h]
    simp
  · exact Joint.step_of_locked j sq dt h

/-- Witness for C5 at a concrete locked joint. -/
theorem locked_joint_frame_instance :
    jLockedW.add_force 2 = jLockedW ∧
      jLockedW.step (fun x => x) 3 =
        some (jLockedW, ⟨jLockedW.q, jLockedW.vel, jLockedW.locked, 0⟩) :=
  locked_joint_frame jLockedW (fun x => x) 2 3 rfl

/-- Claim C10: for every position `q`, the zone lookup over an empty
threshold list returns 1, not 0; hence every unlocked joint built with
`states = []` and a damping list of length 1 (the documented invariant
`len(dampings) == len(states) + 1`) hits an out-of-range damping lookup in
`step(dt)` — modelled by the `none` result standing for the `IndexError`. -/
theorem empty_states_out_of_range (sq : α → α) (qv dt : α) (j : Joint α)
    (h1 : j.locked = false) (h2 : j.states = []) (h3 : j.dampings.length = 1) :
    get_state qv ([] : List α) = 1 ∧ j.step sq dt = none := by
  refine ⟨rfl, ?_⟩
  obtain ⟨d, hd⟩ := List.length_eq_one.mp h3
  unfold Joint.step
  rw [h1]
  simp [h2, hd, get_state, List.get?]

/-- Witness for C10 at a concrete unlocked joint with empty thresholds. -/
theorem empty_states_out_of_range_instance :
    get_state (0 : ℚ) ([] : List ℚ) = 1 ∧ jEmptyW.step (fun x => x) 1 = none :=
  empty_states_out_of_range (fun x => x) 0 1 jEmptyW rfl rfl rfl

/-- Claim C6: after a single `Locker.step`, the target joint is locked iff
the locker joint's position satisfies `lower < q < upper` (exclusive
bounds); after a single `MultiLocker.step`, the target is locked iff the
position lies in at least one configured interval `[lo, hi]` (inclusive
bounds) — regardless of the target's lock state before the call. -/
theorem locker_region_decides_lock (L : Locker α) (M : MultiLocker α)
    (joints : List (Joint α)) (lk tg lk2 tg2 : Joint α) :
    (joints.get? L.lockerIdx = some lk → joints.get? L.lockedIdx = some tg →
      ∃ js tg3, L.step joints = some js ∧ js.get? L.lockedIdx = some tg3 ∧
        (tg3.locked = true ↔ (L.lower < lk.q ∧ lk.q < L.upper))) ∧
    (joints.get? M.lockerIdx = some lk2 → joints.get? M.lockedIdx = some tg2 →
      ∃ js tg3, M.step joints = some js ∧ js.get? M.lockedIdx = some tg3 ∧
        (tg3.locked = true ↔ ∃ p ∈ M.locks, p.1 ≤ lk2.q ∧ lk2.q ≤ p.2)) := by
  constructor
  · intro h1 h2
    rcases Bool.eq_false_or_eq_true tg.locked with hl | hl <;>
      by_cases hc : L.lower < lk.q ∧ lk.q < L.upper
    · have hstep : L.step joints = some joints := by
        unfold Locker.step
        rw [h1, h2]
        simp only [Option.some_bind, Joint.is_locked, hl]
        rw [if_pos hc]
        simp
      exact ⟨joints, tg, hstep, h2, by simp [hl, hc]⟩
    · have hstep : L.step joints = some (joints.set L.lockedIdx tg.unlock) := by
        unfold Locker.step
        rw [h1, h2]
        simp only [Option.some_bind, Joint.is_locked, hl]
        rw [if_neg hc]
        simp
      exact ⟨_, tg.unlock, hstep, list_get?_set_self joints L.lockedIdx tg tg.unlock h2,
        by simp [Joint.unlock, hc]⟩
    · have hstep : L.step joints = some (joints.set L.lockedIdx tg.lock) := by
        unfold Locker.step
        rw [h1, h2]
        simp only [Option.some_bind, Joint.is_locked, hl]
        rw [if_pos hc]
        simp
      exact ⟨_, tg.lock, hstep, list_get?_set_self joints L.lockedIdx tg tg.lock h2,
        by simp [Joint.lock, hc]⟩
    · have hstep : L.step joints = some joints := by
        unfold Locker.step
        rw [h1, h2]
        simp only [Option.some_bind, Joint.is_locked, hl]
        rw [if_neg hc]
        simp
      exact ⟨joints, tg, hstep, h2, by simp [hl, hc]⟩
  · intro h1 h2
    have hiff : ((M.locks.any fun l => decide (l.1 ≤ lk2.q ∧ lk2.q ≤ l.2)) = true) ↔
        ∃ p ∈ M.locks, p.1 ≤ lk2.q ∧ lk2.q ≤ p.2 := by
      simp [List.any_eq_true]
    rcases Bool.eq_false_or_eq_true (M.locks.any fun l => decide (l.1 ≤ lk2.q ∧ lk2.q ≤ l.2))
      with hsh | hsh <;> rcases Bool.eq_false_or_eq_true tg2.locked with hl | hl
    · have hstep : M.step joints = some joints := by
        unfold MultiLocker.step
        rw [h1, h2]
        simp only [Option.some_bind, Joint.is_locked, hl, hsh]
        simp
      exact ⟨joints, tg2, hstep, h2, by rw [hl, ← hiff, hsh]⟩
    · have hstep : M.step joints = some (joints.set M.lockedIdx tg2.lock) := by
        unfold MultiLocker.step
        rw [h1, h2]
        simp only [Option.some_bind, Joint.is_locked, hl, hsh]
        simp
      exact ⟨_, tg2.lock, hstep, list_get?_set_self joints M.lockedIdx tg2 tg2.lock h2,
        by rw [show tg2.lock.locked = true from rfl, ← hiff, hsh]⟩
    · have hstep : M.step joints = some (joints.set M.lockedIdx tg2.unlock) := by
        unfold MultiLocker.step
        rw [h1, h2]
        simp only [Option.some_bind, Joint.is_locked, hl, hsh]
        simp
      exact ⟨_, tg2.unlock, hstep, list_get?_set_self joints M.lockedIdx tg2 tg2.unlock h2,
        by rw [show tg2.unlock.locked = false from rfl, ← hiff, hsh]⟩
    · have hstep : M.step joints = some joints := by
        unfold MultiLocker.step
        rw [h1, h2]
        simp only [Option.some_bind, Joint.is_locked, hl, hsh]
        simp
      exact ⟨joints, tg2, hstep, h2, by rw [hl, ← hiff, hsh]⟩

/-- Witness for C6: the locker joint rests at `q = 5`, inside `LW`'s
exclusive region `(1, 9)`. -/
theorem locker_region_decides_lock_instance :
    ∃ js tg3, LW.step [jAt5W, jFreeW] = some js ∧ js.get? LW.lockedIdx = some tg3 ∧
      (tg3.locked = true ↔ (LW.lower < jAt5W.q ∧ jAt5W.q < LW.upper)) :=
  (locker_region_decides_lock LW MW [jAt5W, jFreeW] jAt5W jFreeW jAt5W jFreeW).1 rfl rfl

/-- Claim C7: `Locker.step` and `MultiLocker.step` apply lock transitions
guarded — when the target is already locked and the region condition holds,
or already unlocked and the condition fails, the joint list (in particular
the target's velocity) is left entirely unchanged, so the velocity reset in
`Joint.lock` can only fire on an unlocked-to-locked transition. -/
theorem locker_transition_guarded (L : Locker α) (M : MultiLocker α)
    (joints : List (Joint α)) (lk tg lk2 tg2 : Joint α) :
    (joints.get? L.lockerIdx = some lk → joints.get? L.lockedIdx = some tg →
      tg.locked = true → L.lower < lk.q → lk.q < L.upper →
      L.step joints = some joints) ∧
    (joints.get? L.lockerIdx = some lk → joints.get? L.lockedIdx = some tg →
      tg.locked = false → ¬(L.lower < lk.q ∧ lk.q < L.upper) →
      L.step joints = some joints) ∧
    (joints.get? M.lockerIdx = some lk2 → joints.get? M.lockedIdx = some tg2 →
      tg2.locked = true →
      (M.locks.any fun l => decide (l.1 ≤ lk2.q ∧ lk2.q ≤ l.2)) = true →
      M.step joints = some joints) ∧
    (joints.get? M.lockerIdx = some lk2 → joints.get? M.lockedIdx = some tg2 →
      tg2.locked = false →
      (M.locks.any fun l => decide (l.1 ≤ lk2.q ∧ lk2.q ≤ l.2)) = false →
      M.step joints = some joints) := by
  refine ⟨?_, ?_, ?_, ?_⟩
  · intro h1 h2 hl hlow hup
    unfold Locker.step
    rw [h1, h2]
    simp only [Option.some_bind, Joint.is_locked, hl]
    rw [if_pos ⟨hlow, hup⟩]
    simp
  · intro h1 h2 hl hc
    unfold Locker.step
    rw [h1, h2]
    simp only [Option.some_bind, Joint.is_locked, hl]
    rw [if_neg hc]
    simp
  · intro h1 h2 hl hsh
    unfold MultiLocker.step
    rw [h1, h2]
    simp only [Option.some_bind, Joint.is_locked, hl, hsh]
    simp
  · intro h1 h2 hl hsh
    unfold MultiLocker.step
    rw [h1, h2]
    simp only [Option.some_bind, Joint.is_locked, hl, hsh]
    simp

/-- Witness for C7: re-evaluating `LW` while its target is already locked
and the locker joint sits inside the region leaves the joints unchanged. -/
theorem locker_transition_guarded_instance :
    LW.step [jAt5W, jLockedW] = some [jAt5W, jLockedW] :=
  (locker_transition_guarded LW MW [jAt5W, jLockedW] jAt5W jLockedW jAt5W jLockedW).1
    rfl rfl rfl (by norm_num [LW, jAt5W, jFreeW]) (by norm_num [LW, jAt5W, jFreeW])

/-- Claim C8: in every `Controller.step` call where both modes are active
and the force command is not finished, the desired force is the
`ForceController`'s output and the `PositionController` is not consulted
(its state, the position flag and the draw counter are untouched); and in
every call the force forwarded to the joint via `add_force` equals
`sign(desired) * min(|desired|, 15)`. -/
theorem controller_force_priority (c : Controller α) (g : ℕ → α) (dt : α)
    (joints : List (Joint α)) (rng : ℕ) (jt : Joint α)
    (hjt : joints.get? c.jointIdx = some jt) :
    (c.forceControl = true → c.positionControl = true →
      c.forceController.is_done = false →
      ∃ r, c.step g dt joints rng = some r ∧
        r.desired = (c.forceController.step dt).2 ∧
        r.ctrl.positionController = c.positionController ∧
        r.ctrl.positionControl = true ∧ r.rng = rng) ∧
    (c.maxForce = 15 →
      ∃ r, c.step g dt joints rng = some r ∧
        r.applied = sgn r.desired * min |r.desired| 15 ∧
        r.joints = joints.set c.jointIdx (jt.add_force r.applied)) := by
  have hr : ∃ r, c.step g dt joints rng = some r := by
    unfold Controller.step
    rw [hjt]
    exact ⟨_, rfl⟩
  obtain ⟨r, hr⟩ := hr
  obtain ⟨jt2, hjt2, hctrl, hrng, hdes, happ, hjs⟩ :=
    Controller.step_shape c g dt joints rng r hr
  rw [hjt] at hjt2
  obtain rfl : jt = jt2 := Option.some.inj hjt2
  constructor
  · intro hf hp hd
    have hm : c.stepMode g dt jt rng =
        ({ c with forceController := (c.forceController.step dt).1 }, rng,
         (c.forceController.step dt).2) := by
      unfold Controller.stepMode
      rw [hf, hd]
      simp
    refine ⟨r, hr, ?_, ?_, ?_, ?_⟩
    · rw [hdes, hm]
    · rw [hctrl, hm]
    · rw [hctrl, hm]
      exact hp
    · rw [hrng, hm]
  · intro hmf
    exact ⟨r, hr, by rw [happ, hmf], hjs⟩

/-- Witness for C8: a controller with both modes armed, an unfinished force
command of duration 1 and magnitude 9, driving the free joint. -/
theorem controller_force_priority_instance :
    ∃ r, cBothW.step (fun _ => 0) 1 [jFreeW] 0 = some r ∧
      r.desired = (cBothW.forceController.step 1).2 ∧
      r.ctrl.positionController = cBothW.positionController ∧
      r.ctrl.positionControl = true ∧ r.rng = 0 :=
  (controller_force_priority cBothW (fun _ => 0) 1 [jFreeW] 0 jFreeW rfl).1 rfl rfl
    (by norm_num [ForceController.is_done, cBothW])

theorem Joint.step_no_clamp (j : Joint α) (sq : α → α) (dt d : α)
    (hl : j.locked = false)
    (hmax : ∀ m, j.maxLimit = some m → j.q + j.vel * dt ≤ m)
    (hmin : ∀ m, j.minLimit = some m → m ≤ j.q + j.vel * dt)
    (hd : j.dampings.get? (get_state (j.q + j.vel * dt) j.states) = some d) :
    j.step sq dt = some
      ({ j with q := j.q + j.vel * dt,
                vel := sgn j.vel * sq (max (j.vel ^ 2 - |d * j.vel * dt|) 0) },
       { q := j.q + j.vel * dt,
         vel := sgn j.vel * sq (max (j.vel ^ 2 - |d * j.vel * dt|) 0),
         locked := j.locked,
         direction := sgn j.vel }) := by
  unfold Joint.step
  rw [hl]
  rcases hM : j.maxLimit with _ | m <;> rcases hm2 : j.minLimit with _ | m2
  · simp only [Bool.false_eq_true, if_false, hM, hm2, hd, neg_neg, one_mul]
  · have hno : ¬ (m2 > j.q + j.vel * dt) := not_lt.mpr (hmin m2 hm2)
    simp only [Bool.false_eq_true, if_false, hM, hm2, gt_iff_lt, hno, if_false, hd,
      neg_neg, one_mul]
  · have hno : ¬ (j.q + j.vel * dt > m) := not_lt.mpr (hmax m hM)
    simp only [Bool.false_eq_true, if_false, hM, hm2, gt_iff_lt]
    rw [if_neg hno]
    simp only [hd, neg_neg, one_mul]
  · have hnoM : ¬ (j.q + j.vel * dt > m) := not_lt.mpr (hmax m hM)
    have hnom : ¬ (m2 > j.q + j.vel * dt) := not_lt.mpr (hmin m2 hm2)
    simp only [Bool.false_eq_true, if_false, hM, hm2, gt_iff_lt]
    rw [if_neg hnoM]
    rw [if_neg hnom]
    simp only [hd, neg_neg, one_mul]

/-- Claim C9: for every unlocked real-valued joint whose zone damping is
positive, if the tick's integration does not clamp the position at a limit
(no bounce), then the absolute velocity after `step(dt)` is at most its
absolute value before the call, for every `dt > 0`. -/
theorem step_friction_contracts (j : Joint ℝ) (dt d : ℝ)
    (hl : j.locked = false) (hdt : 0 < dt)
    (hmax : ∀ m, j.maxLimit = some m → j.q + j.vel * dt ≤ m)
    (hmin : ∀ m, j.minLimit = some m → m ≤ j.q + j.vel * dt)
    (hd : j.dampings.get? (get_state (j.q + j.vel * dt) j.states) = some d)
    (hdpos : 0 < d) :
    ∃ jt2 smp, j.step Real.sqrt dt = some (jt2, smp) ∧ |jt2.vel| ≤ |j.vel| := by
  refine ⟨_, _, Joint.step_no_clamp j Real.sqrt dt d hl hmax hmin hd, ?_⟩
  show |sgn j.vel * Real.sqrt (max (j.vel ^ 2 - |d * j.vel * dt|) 0)| ≤ |j.vel|
  rw [abs_mul]
  have hs : |sgn j.vel| = 1 := by
    unfold sgn
    split
    · rw [abs_neg, abs_one]
    · rw [abs_one]
  rw [hs, one_mul, abs_of_nonneg (Real.sqrt_nonneg _)]
  have h1 : max (j.vel ^ 2 - |d * j.vel * dt|) 0 ≤ j.vel ^ 2 :=
    max_le (sub_le_self _ (abs_nonneg _)) (sq_nonneg _)
  calc Real.sqrt (max (j.vel ^ 2 - |d * j.vel * dt|) 0)
      ≤ Real.sqrt (j.vel ^ 2) := Real.sqrt_le_sqrt h1
    _ = |j.vel| := Real.sqrt_sq_eq_abs j.vel

/-- Witness for C9 at the unit-velocity joint `jRW` with damping 2. -/
theorem step_friction_contracts_instance :
    ∃ jt2 smp, jRW.step Real.sqrt 1 = some (jt2, smp) ∧ |jt2.vel| ≤ |jRW.vel| :=
  step_friction_contracts jRW 1 2 rfl one_pos
    (fun m hm => by simp [jRW] at hm)
    (fun m hm => by simp [jRW] at hm)
    rfl
    (by norm_num)

/-- Claim C4: `World.step(dt)` is exactly the composition of three phases:
advance the clock by `dt`, step every `Joint` in index order (each joint's
update reading only that joint's own prior state, expressed by the
pointwise characterisation of the joint phase), and only then run every
registered listener in registration order on the state in which all joints
are already final; the resulting clock reads `time + dt` and the listener
registration order is untouched. -/
theorem world_step_phase_order (sq : α → α) (g : ℕ → α) (dt : α) (s : World α) :
    s.step sq g dt = (stepJointsList sq dt s.joints).bind (fun joints =>
        World.inform_listeners g dt { s with time := s.time + dt, joints := joints }) ∧
    (∀ js, stepJointsList sq dt s.joints = some js →
        ∀ k, js.get? k = (s.joints.get? k).bind fun jt => (jt.step sq dt).map Prod.fst) ∧
    (∀ (t : World α) (r : ListenerRef) (rs : List ListenerRef),
        informListenersAux g dt (r :: rs) t =
          (informOne g dt t r).bind (informListenersAux g dt rs)) ∧
    (∀ s2, s.step sq g dt = some s2 → s2.time = s.time + dt ∧ s2.listeners = s.listeners) := by
  refine ⟨rfl, ?_, ?_, ?_⟩
  · exact fun js h => stepJointsList_get? sq dt s.joints js h
  · intro t r rs
    rfl
  · intro s2 h
    unfold World.step at h
    cases h1 : stepJointsList sq dt s.joints with
    | none => rw [h1] at h; simp at h
    | some js =>
      rw [h1] at h
      simp only [Option.some_bind] at h
      unfold World.inform_listeners at h
      obtain ⟨_, ht, hls⟩ := informListenersAux_preserves g dt _ _ s2 h
      exact ⟨ht, hls⟩

/-- Witness for C4: the joint phase of `wLockedW` maps its single locked
joint to itself, pointwise at index 0. -/
theorem world_step_phase_order_instance :
    ([jLockedW] : List (Joint ℚ)).get? 0 =
      (wLockedW.joints.get? 0).bind fun jt => (jt.step (fun x => x) 1).map Prod.fst :=
  (world_step_phase_order (fun x => x) (fun _ => 0) 1 wLockedW).2.1 [jLockedW] rfl 0

theorem runActionAux_eq_spec (sq : α → α) (g : ℕ → α) (tau : α) (fuel : ℕ)
    (pos : List α) : ∀ (j : ℕ) (s : World α),
    runActionAux sq g tau fuel j pos s = runActionSpec sq g tau fuel (enumPairs j pos) s := by
  induction pos with
  | nil => intro j s; rfl
  | cons p ps ih =>
    intro j s
    show (moveToCtrl j p s).bind (fun s1 => (waitLoop sq g tau j fuel s1).bind
        (runActionAux sq g tau fuel (j + 1) ps)) = _
    rw [show enumPairs j (p :: ps) = (j, p) :: enumPairs (j + 1) ps from rfl]
    show _ = (moveToCtrl j p s).bind (fun s1 => (waitLoop sq g tau j fuel s1).bind
        (runActionSpec sq g tau fuel (enumPairs (j + 1) ps)))
    cases moveToCtrl j p s with
    | none => rfl
    | some s1 =>
      simp only [Option.some_bind]
      cases waitLoop sq g tau j fuel s1 with
      | none => rfl
      | some s2 =>
        simp only [Option.some_bind]
        exact ih (j + 1) s2

/-- Claim C3: `run_action` processes its goals sequentially as the ordered
sequence of (joint index, target position) pairs produced by Python's
`enumerate` — the pair `(j, p)` issues `move_to(p)` on controller `j`, then
the world is repeatedly advanced by `tau` until controller `j` reports
done, before the next pair is taken up.  `runActionSpec` is written from
the spec's words over explicit pairs; `run_action` is the source's loop. -/
theorem run_action_sequential_pairs (sq : α → α) (g : ℕ → α) (tau : α) (fuel : ℕ)
    (pos : List α) (s : World α) :
    run_action sq g tau fuel pos s = runActionSpec sq g tau fuel (enumPairs 0 pos) s ∧
    (∀ (j : ℕ) (p : α) (gs : List (ℕ × α)) (t : World α),
        runActionSpec sq g tau fuel ((j, p) :: gs) t =
          (moveToCtrl j p t).bind fun t1 =>
            (waitLoop sq g tau j fuel t1).bind (runActionSpec sq g tau fuel gs)) ∧
    (∀ (j fl : ℕ) (t : World α) (c : Controller α), t.controllers.get? j = some c →
        waitLoop sq g tau j (fl + 1) t =
          if c.is_done then some t
          else (t.step sq g tau).bind (waitLoop sq g tau j fl)) := by
  refine ⟨runActionAux_eq_spec sq g tau fuel pos 0 s, fun j p gs t => rfl, ?_⟩
  intro j fl t c hc
  show (t.controllers.get? j).bind _ = _
  rw [hc]
  simp only [Option.some_bind]

/-- Witness for C3: a fresh controller is immediately done, so the wait
loop returns the state unchanged. -/
theorem run_action_sequential_pairs_instance :
    waitLoop (fun x => x) (fun _ => 0) (1 : ℚ) 0 1 wLockedW =
      if (Controller.init 0 : Controller ℚ).is_done then some wLockedW
      else (wLockedW.step (fun x => x) (fun _ => 0) 1).bind
        (waitLoop (fun x => x) (fun _ => 0) 1 0 0) :=
  (run_action_sequential_pairs (fun x => x) (fun _ => 0) 1 0 [] wLockedW).2.2 0 0 wLockedW
    (Controller.init 0) rfl

/-- Claim C1: `check_state(j)` records the joint's position, arms a timed
force of magnitude 10 and duration 1 on that joint's controller, advances
the world exactly 10 ticks of size `tau`, and returns 0 exactly when the
absolute position change exceeds `10e-3` and 1 otherwise; in particular,
for a joint that is locked and stays locked throughout the probe the
position cannot change, so the probe returns 1. -/
theorem check_state_probe (sq : α → α) (g : ℕ → α) (tau : α) (j : ℕ) (s : World α) :
    (∀ r s2, check_state sq g tau j s = some (r, s2) →
      ∃ jt c jt2, s.joints.get? j = some jt ∧ s.controllers.get? j = some c ∧
        stepN sq g tau 10
          { s with controllers := s.controllers.set j (c.apply_force 1 10) } = some s2 ∧
        s2.joints.get? j = some jt2 ∧
        r = if |jt.q - jt2.q| > 10 / 1000 then 0 else 1) ∧
    (∀ jt c, s.joints.get? j = some jt → s.controllers.get? j = some c →
      jt.locked = true →
      (∀ k, k ≤ 10 →
        ((stepN sq g tau k
            { s with controllers := s.controllers.set j (c.apply_force 1 10) }).bind
          fun t => (t.joints.get? j).map Joint.locked) = some true) →
      ∃ s2, check_state sq g tau j s = some (1, s2)) := by
  constructor
  · intro r s2 h
    unfold check_state at h
    cases h1 : s.joints.get? j with
    | none => rw [h1] at h; simp at h
    | some jt =>
      rw [h1] at h
      simp only [Option.some_bind] at h
      cases h2 : s.controllers.get? j with
      | none => rw [h2] at h; simp at h
      | some c =>
        rw [h2] at h
        simp only [Option.some_bind] at h
        cases h3 : stepN sq g tau 10
            { s with controllers := s.controllers.set j (c.apply_force 1 10) } with
        | none => rw [h3] at h; simp at h
        | some s2x =>
          rw [h3] at h
          simp only [Option.some_bind] at h
          cases h4 : s2x.joints.get? j with
          | none => rw [h4] at h; simp at h
          | some jt2 =>
            rw [h4] at h
            simp only [Option.some_bind, Option.some.injEq, Prod.mk.injEq] at h
            obtain ⟨hr, hs2⟩ := h
            subst hs2
            exact ⟨jt, c, jt2, rfl, rfl, h3, h4, hr.symm⟩
  · intro jt c hjt hc hlk H
    have key : ∀ k, k ≤ 10 → ∃ t jt3,
        stepN sq g tau k
          { s with controllers := s.controllers.set j (c.apply_force 1 10) } = some t ∧
        t.joints.get? j = some jt3 ∧ jt3.q = jt.q ∧ jt3.locked = true := by
      intro k
      induction k with
      | zero =>
        intro _
        exact ⟨_, jt, rfl, hjt, rfl, hlk⟩
      | succ n ihn =>
        intro hn
        obtain ⟨t, jt3, ht, hjt3, hq3, hl3⟩ := ihn (Nat.le_of_succ_le hn)
        have Hn1 := H (n + 1) hn
        rw [stepN_succ_back, ht] at Hn1
        simp only [Option.some_bind] at Hn1
        cases ht2 : t.step sq g tau with
        | none => rw [ht2] at Hn1; simp at Hn1
        | some t2 =>
          rw [ht2] at Hn1
          simp only [Option.some_bind] at Hn1
          have hq2 := World.step_locked_q t sq g tau j jt3 t2 hjt3 hl3 ht2
          cases hjt4 : t2.joints.get? j with
          | none => rw [hjt4] at hq2; simp at hq2
          | some jt4 =>
            rw [hjt4] at hq2
            simp only [Option.map_some', Option.some.injEq] at hq2
            rw [hjt4] at Hn1
            simp only [Option.map_some', Option.some.injEq] at Hn1
            refine ⟨t2, jt4, ?_, hjt4, hq2.trans hq3, Hn1⟩
            rw [stepN_succ_back, ht]
            simp only [Option.some_bind]
            exact ht2
    obtain ⟨s2, jt2, h10, hjt2, hq2, _⟩ := key 10 le_rfl
    refine ⟨s2, ?_⟩
    unfold check_state
    rw [hjt]
    simp only [Option.some_bind]
    rw [hc]
    simp only [Option.some_bind]
    rw [h10]
    simp only [Option.some_bind]
    rw [hjt2]
    simp only [Option.some_bind]
    rw [hq2, sub_self, abs_zero]
    rw [if_neg (not_lt.mpr (le_of_lt (by positivity : (0 : α) < 10 / 1000)))]

/-- Witness for C1: probing the locked joint of `wLockedPlainW` with
`tau = 1` returns 1. -/
theorem check_state_probe_instance :
    ∃ s2, check_state (fun x => x) (fun _ => 0) (1 : ℚ) 0 wLockedPlainW = some (1, s2) :=
  (check_state_probe (fun x => x) (fun _ => 0) 1 0 wLockedPlainW).2 jLockedW
    (Controller.init 0) rfl rfl rfl (by
      intro k hk
      interval_cases k <;>
        norm_num [stepN, World.step, stepJointsList, Joint.step, World.inform_listeners,
          informListenersAux, informOne, Joint.is_locked,
          Controller.apply_force, ForceController.apply_force, Controller.init,
          ForceController.init, PositionController.init,
          wLockedPlainW, jLockedW, List.get?, List.set, Option.some_bind])
